import Mathlib

/-!
Verification of the oxfmt LSP formatting subsystem
(`apps/oxfmt/src/lsp/server_formatter.rs` and friends).

Texts are modelled as lists of Unicode scalar values (`List Char`,
matching Rust `str` as a sequence of `char`s); their UTF-8 byte form
is recovered with `utf8Bytes`, matching Rust `str::as_bytes`.
-/

namespace Oxfmt

/-- UTF-8 encoding of one Unicode scalar value, as in Rust `char::encode_utf8`.
Rust `char::len_utf8` is the length of this list. -/
def utf8EncodeChar (c : Char) : List Nat :=
  let n := c.toNat
  if n < 0x80 then [n]
  else if n < 0x800 then [0xC0 + n / 64, 0x80 + n % 64]
  else if n < 0x10000 then
    [0xE0 + n / 4096, 0x80 + (n / 64) % 64, 0x80 + n % 64]
  else
    [0xF0 + n / 262144, 0x80 + (n / 4096) % 64, 0x80 + (n / 64) % 64, 0x80 + n % 64]

/-- The UTF-8 bytes of a text, as in Rust `str::as_bytes`. -/
def utf8Bytes (s : List Char) : List Nat :=
  s.flatMap utf8EncodeChar

/-- The common-prefix byte length accumulated by the first loop of
`compute_minimal_text_edit`: walk the two texts codepoint-by-codepoint
(`source_text.chars().zip(formatted_text.chars())`), adding `len_utf8`
of each codepoint while they agree, stopping at the first mismatch. -/
def prefixByteLoop : List Char → List Char → Nat
  | a :: as, b :: bs =>
    if a = b then (utf8EncodeChar a).length + prefixByteLoop as bs else 0
  | _, _ => 0

/-- One step of the suffix `while` loop of `compute_minimal_text_edit`,
with explicit fuel (the loop adds at most `src.length` iterations).
Mirrors:
`while suffix_byte < src_len - prefix && suffix_byte < fmt_len - prefix
  && src_bytes[src_len-1-suffix] == fmt_bytes[fmt_len-1-suffix]`. -/
def suffixLoopAux (srcB fmtB : List Nat) (pfx : Nat) : Nat → Nat → Nat
  | suffix, 0 => suffix
  | suffix, fuel + 1 =>
    if suffix < srcB.length - pfx ∧ suffix < fmtB.length - pfx ∧
        srcB.getD (srcB.length - 1 - suffix) 0 = fmtB.getD (fmtB.length - 1 - suffix) 0 then
      suffixLoopAux srcB fmtB pfx (suffix + 1) fuel
    else
      suffix

/-- The common-suffix byte length computed by the second loop of
`compute_minimal_text_edit` (a byte-by-byte scan from the end, bounded so it
never reaches into the prefix region of either string). -/
def suffixLoop (srcB fmtB : List Nat) (pfx : Nat) : Nat :=
  suffixLoopAux srcB fmtB pfx 0 srcB.length

/-- `compute_minimal_text_edit(source_text, formatted_text)`:
returns `(start, end, replacement)` where `start`/`end` are byte offsets into
`source_text` and `replacement` is the byte slice
`formatted_text[prefix .. fmt_len - suffix]`. -/
def computeMinimalTextEdit (sourceText formattedText : List Char) :
    Nat × Nat × List Nat :=
  let srcB := utf8Bytes sourceText
  let fmtB := utf8Bytes formattedText
  let pfx := prefixByteLoop sourceText formattedText
  let sfx := suffixLoop srcB fmtB pfx
  (pfx, srcB.length - sfx, (fmtB.take (fmtB.length - sfx)).drop pfx)

/-- Whether byte offset `i` is a codepoint boundary of text `s`
(Rust `str::is_char_boundary`): `i` is the byte length of some
codepoint-level front segment of `s`. -/
def isCharBoundary (s : List Char) (i : Nat) : Bool :=
  (List.range (s.length + 1)).any fun k => (utf8Bytes (s.take k)).length = i

/-- `compute_minimal_text_edit` with the implicit Rust slice check made
explicit: `&formatted_text[replacement_start..replacement_end]` panics unless
both indices are codepoint boundaries of `formatted_text`; `none` models that
panic. -/
def computeMinimalTextEditChecked (sourceText formattedText : List Char) :
    Option (Nat × Nat × List Nat) :=
  let fmtB := utf8Bytes formattedText
  let pfx := prefixByteLoop sourceText formattedText
  let sfx := suffixLoop (utf8Bytes sourceText) fmtB pfx
  if isCharBoundary formattedText pfx ∧ isCharBoundary formattedText (fmtB.length - sfx) then
    some (computeMinimalTextEdit sourceText formattedText)
  else
    none

end Oxfmt

namespace OxfmtSpec

/-- Stated from the claim text, for comparison with the source function:
the maximal common prefix length in bytes of two byte strings. -/
def byteCommonPrefixLen : List Nat → List Nat → Nat
  | a :: as, b :: bs => if a = b then byteCommonPrefixLen as bs + 1 else 0
  | _, _ => 0

/-- Stated from the spec's words ("scan codepoint-by-codepoint from the start"):
the number of leading codepoints the two texts share. -/
def charPrefixLen : List Char → List Char → Nat
  | a :: as, b :: bs => if a = b then charPrefixLen as bs + 1 else 0
  | _, _ => 0

end OxfmtSpec

namespace Oxfmt

/-- Opaque payload standing for a `serde_json::Value` handed through unchanged
(formatting option payloads); no claim inspects it. -/
abbrev JsonValue := Nat

/-- A file path as the orchestrator observes it: its components (for
`Path::starts_with`), its `file_name()`, and what `is_dir()` reports. -/
structure FsPath where
  components : List String
  fileName : Option String
  isDir : Bool

/-- Result kind of `ignore::gitignore::Gitignore::matched_path_or_any_parents`
(`Match::None | Ignore | Whitelist`). -/
inductive MatchKind where
  | noMatch
  | ignoreMatch
  | whitelistMatch
deriving DecidableEq

/-- The `ignore::gitignore::Gitignore` glob engine as the orchestrator uses it:
its root path (`Gitignore::path`) and its match oracle. -/
structure Gitignore where
  rootComponents : List String
  matched : List String → Bool → MatchKind

/-- `FormatFileStrategy` (`crate::core`), with exactly the variants and fields
`run_format` matches on; payloads not inspected by `run_format` are opaque. -/
inductive FormatFileStrategy where
  | oxcFormatter (sourceType : Nat)
  | oxfmtToml
  | externalFormatter (parserName : String)
  | externalFormatterPackageJson (parserName : String)
deriving DecidableEq

/-- `ResolvedOptions` (`crate::core`), with the fields `run_format` binds;
fields it discards (`..`) are omitted. -/
inductive ResolvedOptions where
  | oxcFormatter (formatOptions : JsonValue) (insertFinalNewline : Bool)
  | oxfmtToml
  | externalFormatter (externalOptions : JsonValue) (insertFinalNewline : Bool)
  | externalFormatterPackageJson (externalOptions : JsonValue) (sortPackageJson : Bool)
      (insertFinalNewline : Bool)

/-- The `ExternalFormatterBridge` trait: four fallible operations
(`init`, `create_workspace`, `delete_workspace`, `format_file`). -/
structure Bridge where
  init : Nat → Except String Unit
  createWorkspace : FsPath → Except String Nat
  deleteWorkspace : Nat → Except String Unit
  formatFile : Nat → JsonValue → String → String → List Char → Except String (List Char)

/-- Which bridge operations a `run_format` call actually performed
(instrumentation for the no-bridge-invocation claims). -/
inductive BridgeCall where
  | initCall
  | createWorkspaceCall
  | deleteWorkspaceCall
  | formatFileCall
deriving DecidableEq

/-- `FORMAT_CONFIG_FILES` (`lsp/mod.rs`). -/
def FORMAT_CONFIG_FILES : List String := [".oxfmtrc.json", ".oxfmtrc.jsonc"]

/-- Modelled from the spec: `crate::lsp::options::FormatOptions` is not among
the provided sources. The spec's only recognized configuration option is
`config-path`, an explicit override of the config file location with the
empty string treated as unset. -/
structure LSPFormatOptions where
  configPath : Option String
deriving DecidableEq

/-- `ServerFormatter::get_watcher_patterns` after deserialization:
a non-empty `config_path` yields that single pattern, otherwise the
default `FORMAT_CONFIG_FILES` pair. -/
def getWatcherPatternsOpts (options : LSPFormatOptions) : List String :=
  match options.configPath with
  | some p => if p = "" then FORMAT_CONFIG_FILES else [p]
  | none => FORMAT_CONFIG_FILES

/-- `ToolRestartChanges`: an optional replacement tool instance and an
optional fresh watch-pattern list. -/
structure ToolRestartChanges (Inst : Type) where
  tool : Option Inst
  watchPatterns : Option (List String)

/-- `ServerFormatter::handle_configuration_change`. `Cfg` stands for the raw
`serde_json::Value` configuration; `deser` is its (fallback-to-default, hence
total) deserialization into options, `build` is `builder.build_boxed`. Equal
deserialized options mean no restart; otherwise a new instance is built and
the new config's watch patterns are computed. -/
def handleConfigurationChange {Cfg Inst : Type}
    (deser : Cfg → LSPFormatOptions) (build : Cfg → Inst)
    (oldJson newJson : Cfg) : ToolRestartChanges Inst :=
  if deser oldJson = deser newJson then
    { tool := none, watchPatterns := none }
  else
    { tool := some (build newJson),
      watchPatterns := some (getWatcherPatternsOpts (deser newJson)) }

/-- Rust `char::is_whitespace` (the Unicode `White_Space` property). -/
def isRustWhitespace (c : Char) : Bool :=
  let n := c.toNat
  decide ((0x09 ≤ n ∧ n ≤ 0x0D) ∨ n = 0x20 ∨ n = 0x85 ∨ n = 0xA0 ∨ n = 0x1680 ∨
    (0x2000 ≤ n ∧ n ≤ 0x200A) ∨ n = 0x2028 ∨ n = 0x2029 ∨ n = 0x202F ∨ n = 0x205F ∨
    n = 0x3000)

/-- Rust `str::trim_end`: the text with every trailing whitespace codepoint
removed (`apply_insert_final_newline` truncates to `code.trim_end().len()`). -/
def trimEnd (code : List Char) : List Char :=
  (code.reverse.dropWhile isRustWhitespace).reverse

/-- `apply_insert_final_newline`: when the final-newline flag is off, truncate
the text to its trailing-whitespace-trimmed length; otherwise leave it alone. -/
def applyInsertFinalNewline (code : List Char) (insertFinalNewline : Bool) : List Char :=
  if insertFinalNewline then code else trimEnd code

/-- One LSP text edit as `build_text_edits` assembles it. The byte offsets are
kept directly; the source converts them to line/column pairs through the
external rope collaborator (`get_line_column`), which is order-preserving
bookkeeping outside this core. -/
structure TextEdit where
  startOffset : Nat
  endOffset : Nat
  newText : List Nat
deriving DecidableEq

/-- `build_text_edits`: a one-element vector holding the minimal edit. -/
def buildTextEdits (sourceText formattedText : List Char) : List TextEdit :=
  let r := computeMinimalTextEdit sourceText formattedText
  [⟨r.1, r.2.1, r.2.2⟩]

/-- The external collaborators `run_format` calls into, as opaque functions:
the strategy classifier (`FormatFileStrategy::try_from(..).ok()`), the file
reader (`std::fs::read_to_string(..).ok()`), `enable_jsx_source_type`, the
parser (whether `Parser::parse` reported errors), the native formatter
(`Formatter::new(..).build` on the parsed program), and the package.json key
sorter (`sort_package_json_with_options`). -/
structure Collaborators where
  classify : FsPath → Option FormatFileStrategy
  readFile : FsPath → Option (List Char)
  enableJsx : Nat → Nat
  parseHasErrors : Nat → List Char → Bool
  nativeFormat : JsonValue → Nat → List Char → List Char
  sortPkgJson : List Char → Except String (List Char)

/-- The `ServerFormatter` state: the config resolver (as its `resolve`
function), the optional ignore glob engine, and the external-formatter
bridge and workspace handle produced at construction. -/
structure ServerFormatter where
  configResolve : FormatFileStrategy → ResolvedOptions
  gitignoreGlob : Option Gitignore
  workspaceHandle : Option Nat
  externalBridge : Option Bridge

/-- `ServerFormatter::is_ignored`: with no glob engine nothing is ignored;
otherwise a path outside the engine's root is never ignored, and inside it
the engine's match decides. -/
def isIgnored (sf : ServerFormatter) (path : FsPath) : Bool :=
  match sf.gitignoreGlob with
  | some glob =>
    if ! glob.rootComponents.isPrefixOf path.components then
      false
    else
      glob.matched path.components path.isDir = MatchKind.ignoreMatch
  | none => false

/-- `ServerFormatterBuilder::init_external_formatter`: probe `init(1)`, then
`create_workspace(root)`; any failure drops the bridge and leaves no handle. -/
def initExternalFormatter (rootPath : FsPath) (bridge : Option Bridge) :
    Option Bridge × Option Nat :=
  match bridge with
  | none => (none, none)
  | some b =>
    match b.init 1 with
    | .error _ => (none, none)
    | .ok _ =>
      match b.createWorkspace rootPath with
      | .ok handle => (some b, some handle)
      | .error _ => (none, none)

/-- `ServerFormatter::run_format`, instrumented with the list of bridge
operations the call performed. Mirrors the source branch for branch:
ignore check, source acquisition, classification, per-strategy option
resolution and execution, final-newline post-processing, the equality
short-circuit to `Some(vec![])`, and `build_text_edits` otherwise. -/
def runFormat (c : Collaborators) (sf : ServerFormatter) (path : FsPath)
    (content : Option (List Char)) : Option (List TextEdit) × List BridgeCall :=
  if isIgnored sf path then (none, [])
  else
    match (match content with | some t => some t | none => c.readFile path) with
    | none => (none, [])
    | some sourceText =>
      match c.classify path with
      | none => (none, [])
      | some strategy =>
        match strategy with
        | .oxcFormatter sourceType =>
          match sf.configResolve strategy with
          | .oxcFormatter formatOptions insertFinalNewline =>
            let sourceType := c.enableJsx sourceType
            if c.parseHasErrors sourceType sourceText then (none, [])
            else
              let code := applyInsertFinalNewline
                (c.nativeFormat formatOptions sourceType sourceText) insertFinalNewline
              if code = sourceText then (some [], [])
              else (some (buildTextEdits sourceText code), [])
          | _ => (none, [])
        | .oxfmtToml => (none, [])
        | .externalFormatter parserName =>
          match sf.externalBridge with
          | none => (none, [])
          | some bridge =>
            match sf.workspaceHandle with
            | none => (none, [])
            | some workspaceHandle =>
              match sf.configResolve strategy with
              | .externalFormatter externalOptions insertFinalNewline =>
                let fileName := path.fileName.getD ""
                match bridge.formatFile workspaceHandle externalOptions parserName
                    fileName sourceText with
                | .error _ => (none, [.formatFileCall])
                | .ok code =>
                  let code := applyInsertFinalNewline code insertFinalNewline
                  if code = sourceText then (some [], [.formatFileCall])
                  else (some (buildTextEdits sourceText code), [.formatFileCall])
              | _ => (none, [])
        | .externalFormatterPackageJson parserName =>
          match sf.externalBridge with
          | none => (none, [])
          | some bridge =>
            match sf.workspaceHandle with
            | none => (none, [])
            | some workspaceHandle =>
              match sf.configResolve strategy with
              | .externalFormatterPackageJson externalOptions sortPackageJson
                  insertFinalNewline =>
                match (if sortPackageJson then c.sortPkgJson sourceText
                       else .ok sourceText : Except String (List Char)) with
                | .error _ => (none, [])
                | .ok sortedText =>
                  let fileName := path.fileName.getD ""
                  match bridge.formatFile workspaceHandle externalOptions parserName
                      fileName sortedText with
                  | .error _ => (none, [.formatFileCall])
                  | .ok code =>
                    let code := applyInsertFinalNewline code insertFinalNewline
                    if code = sortedText then (some [], [.formatFileCall])
                    else (some (buildTextEdits sortedText code), [.formatFileCall])
              | _ => (none, [])

/-- Whether a strategy is one of the two external-engine variants. -/
def FormatFileStrategy.isExternal : FormatFileStrategy → Bool
  | .externalFormatter _ => true
  | .externalFormatterPackageJson _ => true
  | _ => false

end Oxfmt

namespace OxfmtSpec

/-- Stated from the claim text: apply a `TextEdit` to a text at the byte
level — replace the bytes of the edit's span with the edit's new text. -/
def applyEditToBytes (text : List Char) (e : Oxfmt.TextEdit) : List Nat :=
  (Oxfmt.utf8Bytes text).take e.startOffset ++ e.newText ++
    (Oxfmt.utf8Bytes text).drop e.endOffset

end OxfmtSpec

namespace OxfmtFix

open Oxfmt

/-- Concrete request path fixture: a `package.json` inside workspace `ws`. -/
def pkgPath : FsPath :=
  { components := ["ws", "package.json"], fileName := some "package.json", isDir := false }

/-- Concrete workspace-root path fixture. -/
def rootP : FsPath := { components := ["ws"], fileName := none, isDir := true }

/-- Option resolver fixture: shape-matching options for every strategy, with
`sort_package_json = true` and `insert_final_newline = true` for the manifest
variant. -/
def pkgResolve : FormatFileStrategy → ResolvedOptions
  | .externalFormatterPackageJson _ => .externalFormatterPackageJson 0 true true
  | .externalFormatter _ => .externalFormatter 0 true
  | .oxcFormatter _ => .oxcFormatter 0 true
  | .oxfmtToml => .oxfmtToml

/-- Collaborator fixture: every path classifies as the manifest variant and the
package.json key sorter returns `sorted`. -/
def pkgCollab (sorted : List Char) : Collaborators :=
  { classify := fun _ => some (.externalFormatterPackageJson "json")
    readFile := fun _ => none
    enableJsx := fun n => n
    parseHasErrors := fun _ _ => false
    nativeFormat := fun _ _ s => s
    sortPkgJson := fun _ => .ok sorted }

/-- Bridge fixture whose `format_file` always succeeds with `out`. -/
def constBridge (out : List Char) : Bridge :=
  { init := fun _ => .ok ()
    createWorkspace := fun _ => .ok 1
    deleteWorkspace := fun _ => .ok ()
    formatFile := fun _ _ _ _ _ => .ok out }

/-- Bridge fixture whose `init` fails. -/
def failingBridge : Bridge :=
  { init := fun _ => .error "init failed"
    createWorkspace := fun _ => .ok 1
    deleteWorkspace := fun _ => .ok ()
    formatFile := fun _ _ _ _ _ => .ok [] }

/-- A built `ServerFormatter` fixture holding `bridge` and workspace handle 1. -/
def pkgServer (bridge : Bridge) : ServerFormatter :=
  { configResolve := pkgResolve
    gitignoreGlob := none
    workspaceHandle := some 1
    externalBridge := some bridge }

/-- Glob-engine fixture rooted at `ws` that reports an ignore match for
every path. -/
def ignoreAllGlob : Gitignore :=
  { rootComponents := ["ws"], matched := fun _ _ => MatchKind.ignoreMatch }

/-- Deserializer fixture over a two-point raw-config type. -/
def fixDeser : Bool → LSPFormatOptions :=
  fun b => if b then { configPath := some "conf.json" } else { configPath := none }

end OxfmtFix

open Oxfmt OxfmtSpec OxfmtFix

theorem getWatcherPatternsOpts_ne_nil (o : LSPFormatOptions) :
    getWatcherPatternsOpts o ≠ [] := by
  unfold getWatcherPatternsOpts
  cases h : o.configPath with
  | none => simp [FORMAT_CONFIG_FILES]
  | some p =>
    by_cases hp : p = "" <;> simp [hp, FORMAT_CONFIG_FILES]

theorem runFormat_no_external_bridge (c : Collaborators) (sf : ServerFormatter)
    (path : FsPath) (content : Option (List Char)) (s : FormatFileStrategy)
    (hb : sf.externalBridge = none) (hc : c.classify path = some s)
    (hx : s.isExternal = true) :
    runFormat c sf path content = (none, []) := by
  unfold runFormat
  split
  · rfl
  · split
    · rfl
    · rw [hc]
      cases s with
      | oxcFormatter st => simp [FormatFileStrategy.isExternal] at hx
      | oxfmtToml => simp [FormatFileStrategy.isExternal] at hx
      | externalFormatter pn => rw [hb]
      | externalFormatterPackageJson pn => rw [hb]

/-- Claim C6: `run_format` returns `None` whenever the path falls under the
ignore root and the glob engine reports an ignore match, regardless of
supplied content; and a path that does not start with the ignore root is
never ignored. -/
theorem run_format_skips_ignored :
    (∀ (c : Collaborators) (sf : ServerFormatter) (g : Gitignore) (path : FsPath)
        (content : Option (List Char)),
      sf.gitignoreGlob = some g →
      g.rootComponents.isPrefixOf path.components = true →
      g.matched path.components path.isDir = MatchKind.ignoreMatch →
      runFormat c sf path content = (none, []))
    ∧ (∀ (sf : ServerFormatter) (g : Gitignore) (path : FsPath),
      sf.gitignoreGlob = some g →
      g.rootComponents.isPrefixOf path.components = false →
      isIgnored sf path = false) := by
  constructor
  · intro c sf g path content hg hpre hm
    have hig : isIgnored sf path = true := by
      simp [isIgnored, hg, hpre, hm]
    unfold runFormat
    rw [hig]
    simp
  · intro sf g path hg hpre
    simp [isIgnored, hg, hpre]

/-- Witness for C6 at a concrete formatter, glob engine and path. -/
theorem run_format_skips_ignored_witness :
    runFormat (pkgCollab ['a', 'b'])
      { configResolve := pkgResolve, gitignoreGlob := some ignoreAllGlob,
        workspaceHandle := some 1, externalBridge := some (constBridge ['x']) }
      pkgPath (some ['b', 'a']) = (none, [])
    ∧ isIgnored
      { configResolve := pkgResolve, gitignoreGlob := some ignoreAllGlob,
        workspaceHandle := some 1, externalBridge := some (constBridge ['x']) }
      { components := ["elsewhere", "a.ts"], fileName := some "a.ts", isDir := false }
      = false := by
  constructor
  · exact run_format_skips_ignored.1 _ _ ignoreAllGlob _ _ rfl (by decide) rfl
  · exact run_format_skips_ignored.2 _ ignoreAllGlob _ rfl (by decide)

/-- Claim C4: if bridge `init` fails, or `init` succeeds and `create_workspace`
fails, the built instance holds neither bridge nor workspace handle, and every
`run_format` whose strategy is an external variant returns `None` having
performed no bridge operation. -/
theorem external_path_disabled_for_lifetime (b : Bridge) (root : FsPath)
    (h : (∃ e, b.init 1 = .error e) ∨
        (b.init 1 = .ok () ∧ ∃ e, b.createWorkspace root = .error e)) :
    initExternalFormatter root (some b) = (none, none)
    ∧ ∀ (c : Collaborators) (resolve : FormatFileStrategy → ResolvedOptions)
        (glob : Option Gitignore) (path : FsPath) (content : Option (List Char))
        (s : FormatFileStrategy),
        c.classify path = some s → s.isExternal = true →
        runFormat c
          { configResolve := resolve, gitignoreGlob := glob,
            workspaceHandle := (initExternalFormatter root (some b)).2,
            externalBridge := (initExternalFormatter root (some b)).1 }
          path content = (none, []) := by
  have hinit : initExternalFormatter root (some b) = (none, none) := by
    rcases h with ⟨e, he⟩ | ⟨hok, e, he⟩
    · simp [initExternalFormatter, he]
    · simp [initExternalFormatter, hok, he]
  refine ⟨hinit, ?_⟩
  intro c resolve glob path content s hc hx
  exact runFormat_no_external_bridge c _ path content s (by rw [hinit]) hc hx

/-- Witness for C4: a bridge whose `init` fails yields a disabled instance
whose manifest-variant `run_format` is `None` with no bridge calls. -/
theorem external_path_disabled_for_lifetime_witness :
    initExternalFormatter rootP (some failingBridge) = (none, none)
    ∧ runFormat (pkgCollab ['a', 'b'])
        { configResolve := pkgResolve, gitignoreGlob := none,
          workspaceHandle := (initExternalFormatter rootP (some failingBridge)).2,
          externalBridge := (initExternalFormatter rootP (some failingBridge)).1 }
        pkgPath (some ['b', 'a']) = (none, []) := by
  have h := external_path_disabled_for_lifetime failingBridge rootP
    (Or.inl ⟨"init failed", rfl⟩)
  exact ⟨h.1, h.2 (pkgCollab ['a', 'b']) pkgResolve none pkgPath (some ['b', 'a'])
    (.externalFormatterPackageJson "json") rfl rfl⟩

/-- Claim C7: equal deserialized configurations cause no restart; differing
ones cause a rebuild together with a freshly computed, non-empty
watch-pattern list. -/
theorem configuration_change_restart :
    (∀ {Cfg Inst : Type} (deser : Cfg → LSPFormatOptions) (build : Cfg → Inst)
        (cfg : Cfg),
      handleConfigurationChange deser build cfg cfg =
        { tool := none, watchPatterns := none })
    ∧ (∀ {Cfg Inst : Type} (deser : Cfg → LSPFormatOptions) (build : Cfg → Inst)
        (oldCfg newCfg : Cfg), deser oldCfg ≠ deser newCfg →
      handleConfigurationChange deser build oldCfg newCfg =
        { tool := some (build newCfg),
          watchPatterns := some (getWatcherPatternsOpts (deser newCfg)) }
      ∧ getWatcherPatternsOpts (deser newCfg) ≠ []) := by
  constructor
  · intro Cfg Inst deser build cfg
    simp [handleConfigurationChange]
  · intro Cfg Inst deser build o n hne
    exact ⟨by simp [handleConfigurationChange, hne], getWatcherPatternsOpts_ne_nil _⟩

/-- Witness for C7 over a two-point raw-config type. -/
theorem configuration_change_restart_witness :
    handleConfigurationChange fixDeser (fun _ => (0 : Nat)) true true =
      { tool := none, watchPatterns := none }
    ∧ handleConfigurationChange fixDeser (fun _ => (0 : Nat)) false true =
      { tool := some 0, watchPatterns := some (getWatcherPatternsOpts (fixDeser true)) }
    ∧ getWatcherPatternsOpts (fixDeser true) ≠ [] := by
  have h2 := configuration_change_restart.2 fixDeser (fun _ => (0 : Nat)) false true
    (by decide)
  exact ⟨configuration_change_restart.1 fixDeser (fun _ => (0 : Nat)) true, h2.1, h2.2⟩

/-- Claim C8: a non-empty `config-path` override yields exactly that single
watch pattern; an absent or empty override yields exactly the two default
config file names (strict JSON and JSON-with-comments). -/
theorem watcher_patterns_spec :
    (∀ p : String, p ≠ "" → getWatcherPatternsOpts { configPath := some p } = [p])
    ∧ getWatcherPatternsOpts { configPath := none } = FORMAT_CONFIG_FILES
    ∧ getWatcherPatternsOpts { configPath := some "" } = FORMAT_CONFIG_FILES
    ∧ FORMAT_CONFIG_FILES = [".oxfmtrc.json", ".oxfmtrc.jsonc"] := by
  refine ⟨?_, rfl, by simp [getWatcherPatternsOpts], rfl⟩
  intro p hp
  simp [getWatcherPatternsOpts, hp]

/-- Witness for C8 at a concrete non-empty override. -/
theorem watcher_patterns_spec_witness :
    getWatcherPatternsOpts { configPath := some "conf.json" } = ["conf.json"] :=
  watcher_patterns_spec.1 "conf.json" (by decide)

/-- Counterexample to C1 as stated: on `old = "à"` (bytes `C3 A0`) and
`new = "á"` (bytes `C3 A1`) the returned start offset is 0, while the maximal
common prefix length in bytes of the two strings is 1 (the shared lead byte
`C3`): the prefix scan is codepoint-wise, not byte-wise. -/
theorem minimal_edit_start_not_byte_maximal :
    (['à'] : List Char) ≠ ['á']
    ∧ (computeMinimalTextEdit ['à'] ['á']).1 ≠
        byteCommonPrefixLen (utf8Bytes ['à']) (utf8Bytes ['á']) := by
  decide

/-- Claim C2 (code-bug evidence): on `old = "à"` (bytes `C3 A0`) and
`new = "Ơ"` (bytes `C6 A0`) the byte-wise suffix scan accumulates 1 byte, so
the end offset 1 and the replacement byte range `[0, 1)` split both two-byte
codepoints; the checked function (modelling the Rust slice panic on a
non-boundary index) aborts. -/
theorem suffix_scan_splits_codepoint :
    (['à'] : List Char) ≠ ['Ơ']
    ∧ computeMinimalTextEdit ['à'] ['Ơ'] = (0, 1, [0xC6])
    ∧ isCharBoundary ['à'] 1 = false
    ∧ isCharBoundary ['Ơ'] 1 = false
    ∧ computeMinimalTextEditChecked ['à'] ['Ơ'] = none := by
  decide

/-- Claim C3 (code-bug evidence): a manifest request with key-sorting enabled,
input `"ba"`, key-sorted form `"ab"`, and an external formatter returning
`"ab\n"` produces the single edit `(2, 2, "\n")` — computed against the sorted
text — and applying that edit to the caller's original input `"ba"` yields
`"ba\n"`, not the formatted output `"ab\n"`. -/
theorem package_json_edit_not_relative_to_original :
    runFormat (pkgCollab ['a', 'b']) (pkgServer (constBridge ['a', 'b', '\n']))
        pkgPath (some ['b', 'a'])
      = (some [⟨2, 2, [10]⟩], [.formatFileCall])
    ∧ applyEditToBytes ['b', 'a'] ⟨2, 2, [10]⟩ ≠ utf8Bytes ['a', 'b', '\n'] := by
  decide

/-- Claim C5 (code-bug evidence): a manifest request with key-sorting enabled,
input `"ba"` (key-sorted to `"ab"`), whose external formatter returns exactly
the request input `"ba"`, yields a non-empty edit list rather than the
`Some([])` no-op signal, because the equality short-circuit compares against
the sorted text. -/
theorem package_json_noop_returns_nonempty_edits :
    runFormat (pkgCollab ['a', 'b']) (pkgServer (constBridge ['b', 'a']))
        pkgPath (some ['b', 'a'])
      = (some [⟨0, 2, [98, 97]⟩], [.formatFileCall])
    ∧ applyInsertFinalNewline ['b', 'a'] true = ['b', 'a']
    ∧ ([⟨0, 2, [98, 97]⟩] : List TextEdit) ≠ [] := by
  decide

/-- Claim C10: with the final-newline flag on, post-processing leaves the text
unchanged; with it off, the result is a front segment of the text, everything
dropped is whitespace, and the result does not end in whitespace — where
space, tab, newline and carriage return all count as whitespace. -/
theorem insert_final_newline_policy :
    ∀ code : List Char,
      applyInsertFinalNewline code true = code
      ∧ (applyInsertFinalNewline code false).isPrefixOf code = true
      ∧ (code.drop (applyInsertFinalNewline code false).length).all isRustWhitespace = true
      ∧ (applyInsertFinalNewline code false = [] ∨
          isRustWhitespace ((applyInsertFinalNewline code false).getLastD 'a') = false)
      ∧ isRustWhitespace ' ' = true ∧ isRustWhitespace '\t' = true
      ∧ isRustWhitespace '\n' = true ∧ isRustWhitespace '\r' = true := by
  intro code
  have hsplit : applyInsertFinalNewline code false ++
      (code.reverse.takeWhile isRustWhitespace).reverse = code := by
    simp only [applyInsertFinalNewline, if_neg (by simp : ¬ (false : Bool) = true), trimEnd]
    rw [← List.reverse_append, List.takeWhile_append_dropWhile, List.reverse_reverse]
  refine ⟨rfl, ?_, ?_, ?_, rfl, rfl, rfl, rfl⟩
  · rw [ List.isPrefixOf_iff_prefix]
    exact ⟨(code.reverse.takeWhile isRustWhitespace).reverse, hsplit⟩
  · have hdrop := List.drop_left (applyInsertFinalNewline code false)
      ((code.reverse.takeWhile isRustWhitespace).reverse)
    rw [hsplit] at hdrop
    rw [hdrop, List.all_eq_true]
    intro x hx
    exact List.mem_takeWhile_imp (List.mem_reverse.mp hx)
  · have hform : applyInsertFinalNewline code false =
        (code.reverse.dropWhile isRustWhitespace).reverse := by
      simp [applyInsertFinalNewline, trimEnd]
    rcases hd : code.reverse.dropWhile isRustWhitespace with _ | ⟨y, ys⟩
    · left
      rw [hform, hd]
      rfl
    · right
      rw [hform, hd]
      have hy : isRustWhitespace y = false := by
        have h2 := List.head?_dropWhile_not isRustWhitespace code.reverse
        rw [hd] at h2
        simpa using h2
      have hgl : (y :: ys).reverse.getLastD 'a' = y := by
        have hgl2 : (y :: ys).reverse.getLast? = some y := by
          rw [List.getLast?_reverse]
          rfl
        simp [List.getLastD_eq_getLast?, hgl2]
      rw [hgl, hy]

theorem prefixByteLoop_eq (old new : List Char) :
    prefixByteLoop old new = (utf8Bytes (old.take (charPrefixLen old new))).length := by
  induction old generalizing new with
  | nil => cases new <;> simp [prefixByteLoop, charPrefixLen, utf8Bytes]
  | cons a as ih =>
    cases new with
    | nil => simp [prefixByteLoop, charPrefixLen, utf8Bytes]
    | cons b bs =>
      by_cases hab : a = b
      · simp [prefixByteLoop, charPrefixLen, hab, utf8Bytes, List.take_succ_cons,
          ih bs]
      · simp [prefixByteLoop, charPrefixLen, hab, utf8Bytes]

theorem charPrefixLen_take_eq (old new : List Char) :
    old.take (charPrefixLen old new) = new.take (charPrefixLen old new) := by
  induction old generalizing new with
  | nil => simp [charPrefixLen]
  | cons a as ih =>
    cases new with
    | nil => simp [charPrefixLen]
    | cons b bs =>
      by_cases hab : a = b
      · subst hab
        simp [charPrefixLen, List.take_succ_cons, ih bs]
      · simp [charPrefixLen, hab]

theorem charPrefixLen_maximal (old new : List Char) (k : Nat)
    (hk1 : k ≤ old.length) (hk2 : k ≤ new.length)
    (h : old.take k = new.take k) : k ≤ charPrefixLen old new := by
  induction old generalizing new k with
  | nil => simp at hk1; omega
  | cons a as ih =>
    cases new with
    | nil => simp at hk2; omega
    | cons b bs =>
      cases k with
      | zero => exact Nat.zero_le _
      | succ k =>
        simp only [List.take_succ_cons, List.cons.injEq] at h
        obtain ⟨hab, htl⟩ := h
        subst hab
        have := ih bs k (by simpa using hk1) (by simpa using hk2) htl
        simp [charPrefixLen]
        omega

theorem suffixLoopAux_spec (srcB fmtB : List Nat) (pfx : Nat) :
    ∀ (fuel s : Nat), s ≤ min srcB.length fmtB.length - pfx →
      min srcB.length fmtB.length - pfx - s ≤ fuel →
      (∀ j, j < s →
        srcB.getD (srcB.length - 1 - j) 0 = fmtB.getD (fmtB.length - 1 - j) 0) →
      (suffixLoopAux srcB fmtB pfx s fuel ≤ min srcB.length fmtB.length - pfx
       ∧ (∀ j, j < suffixLoopAux srcB fmtB pfx s fuel →
           srcB.getD (srcB.length - 1 - j) 0 = fmtB.getD (fmtB.length - 1 - j) 0)
       ∧ (suffixLoopAux srcB fmtB pfx s fuel = min srcB.length fmtB.length - pfx
          ∨ srcB.getD (srcB.length - 1 - suffixLoopAux srcB fmtB pfx s fuel) 0 ≠
            fmtB.getD (fmtB.length - 1 - suffixLoopAux srcB fmtB pfx s fuel) 0)) := by
  intro fuel
  induction fuel with
  | zero =>
    intro s hs hfuel hmatch
    have hsb : s = min srcB.length fmtB.length - pfx := by omega
    simp only [suffixLoopAux]
    exact ⟨hs, hmatch, Or.inl hsb⟩
  | succ fuel ih =>
    intro s hs hfuel hmatch
    simp only [suffixLoopAux]
    split
    · rename_i hcond
      obtain ⟨h1, h2, h3⟩ := hcond
      refine ih (s + 1) (by omega) (by omega) ?_
      intro j hj
      rcases Nat.lt_succ_iff_lt_or_eq.mp hj with hj' | hj'
      · exact hmatch j hj'
      · subst hj'
        exact h3
    · rename_i hcond
      refine ⟨hs, hmatch, ?_⟩
      by_cases hm : srcB.getD (srcB.length - 1 - s) 0 = fmtB.getD (fmtB.length - 1 - s) 0
      · left
        have : ¬ (s < srcB.length - pfx) ∨ ¬ (s < fmtB.length - pfx) := by
          by_contra hcc
          push_neg at hcc
          exact hcond ⟨hcc.1, hcc.2, hm⟩
        omega
      · right
        exact hm

theorem suffixLoop_spec (srcB fmtB : List Nat) (pfx : Nat) :
    suffixLoop srcB fmtB pfx ≤ min srcB.length fmtB.length - pfx
    ∧ (∀ j, j < suffixLoop srcB fmtB pfx →
        srcB.getD (srcB.length - 1 - j) 0 = fmtB.getD (fmtB.length - 1 - j) 0)
    ∧ (suffixLoop srcB fmtB pfx = min srcB.length fmtB.length - pfx
        ∨ srcB.getD (srcB.length - 1 - suffixLoop srcB fmtB pfx) 0 ≠
          fmtB.getD (fmtB.length - 1 - suffixLoop srcB fmtB pfx) 0) :=
  suffixLoopAux_spec srcB fmtB pfx srcB.length 0 (Nat.zero_le _) (by omega)
    (fun j hj => absurd hj (Nat.not_lt_zero j))

theorem drop_eq_of_end_matches (srcB fmtB : List Nat) (sfx : Nat)
    (h1 : sfx ≤ srcB.length) (h2 : sfx ≤ fmtB.length)
    (hm : ∀ j, j < sfx →
      srcB.getD (srcB.length - 1 - j) 0 = fmtB.getD (fmtB.length - 1 - j) 0) :
    srcB.drop (srcB.length - sfx) = fmtB.drop (fmtB.length - sfx) := by
  apply List.ext_getElem
  · simp
    omega
  · intro i hi1 hi2
    have hi : i < sfx := by
      simp at hi1
      omega
    rw [List.getElem_drop, List.getElem_drop]
    have hlt1 : srcB.length - sfx + i < srcB.length := by omega
    have hlt2 : fmtB.length - sfx + i < fmtB.length := by omega
    rw [← List.getD_eq_getElem srcB 0 hlt1, ← List.getD_eq_getElem fmtB 0 hlt2]
    have harith1 : srcB.length - sfx + i = srcB.length - 1 - (sfx - 1 - i) := by omega
    have harith2 : fmtB.length - sfx + i = fmtB.length - 1 - (sfx - 1 - i) := by omega
    rw [harith1, harith2]
    exact hm _ (by omega)

theorem utf8Bytes_take_prefixByteLoop (old new : List Char) :
    (utf8Bytes old).take (prefixByteLoop old new) =
      (utf8Bytes new).take (prefixByteLoop old new)
    ∧ prefixByteLoop old new ≤ (utf8Bytes old).length
    ∧ prefixByteLoop old new ≤ (utf8Bytes new).length := by
  have hpb := prefixByteLoop_eq old new
  have hte := charPrefixLen_take_eq old new
  have hsplit1 : utf8Bytes old =
      utf8Bytes (old.take (charPrefixLen old new)) ++
        utf8Bytes (old.drop (charPrefixLen old new)) := by
    unfold utf8Bytes
    rw [← List.flatMap_append, List.take_append_drop]
  have hsplit2 : utf8Bytes new =
      utf8Bytes (new.take (charPrefixLen old new)) ++
        utf8Bytes (new.drop (charPrefixLen old new)) := by
    unfold utf8Bytes
    rw [← List.flatMap_append, List.take_append_drop]
  refine ⟨?_, ?_, ?_⟩
  · have h1 : (utf8Bytes old).take (prefixByteLoop old new) =
        utf8Bytes (old.take (charPrefixLen old new)) := by
      conv_lhs => rw [hpb, hsplit1]
      exact List.take_left _ _
    have h2 : (utf8Bytes new).take (prefixByteLoop old new) =
        utf8Bytes (new.take (charPrefixLen old new)) := by
      have hpb2 : prefixByteLoop old new =
          (utf8Bytes (new.take (charPrefixLen old new))).length := by
        rw [hpb, hte]
      conv_lhs => rw [hpb2, hsplit2]
      exact List.take_left _ _
    rw [h1, h2]
    exact congrArg utf8Bytes hte
  · rw [hpb, hsplit1]
    simp
  · rw [hpb, hte, hsplit2]
    simp

/-- Claim C1 as amended: for `old ≠ new`, whenever `compute_minimal_text_edit`
returns at all — that is, the computed replacement byte range lands on
codepoint boundaries of `new`, so the Rust slice
`&formatted_text[replacement_start..replacement_end]` does not panic, modelled
by `computeMinimalTextEditChecked` yielding `some` — the returned `(s, e, r)`
satisfies `old[..s] + r + old[e..] == new` at the byte level, `s` is the byte
length of the maximal common codepoint prefix (not the maximal byte-level
one), and `len(old) - e` is the maximal common byte-level suffix capped so it
never overlaps the prefix region in either string
(`len(old) - e ≤ min(len(old), len(new)) - s`). -/
theorem minimal_text_edit_amended (old new : List Char) (h : old ≠ new)
    (s e : Nat) (rep : List Nat)
    (hret : computeMinimalTextEditChecked old new = some (s, e, rep)) :
    ((utf8Bytes old).take s ++ rep ++ (utf8Bytes old).drop e = utf8Bytes new)
    ∧ s = (utf8Bytes (old.take (charPrefixLen old new))).length
    ∧ old.take (charPrefixLen old new) = new.take (charPrefixLen old new)
    ∧ (∀ k, k ≤ old.length → k ≤ new.length → old.take k = new.take k →
        k ≤ charPrefixLen old new)
    ∧ (utf8Bytes old).length - e ≤
        min (utf8Bytes old).length (utf8Bytes new).length - s
    ∧ s ≤ e ∧ e ≤ (utf8Bytes old).length
    ∧ (utf8Bytes old).drop e =
        (utf8Bytes new).drop ((utf8Bytes new).length - ((utf8Bytes old).length - e))
    ∧ ((utf8Bytes old).length - e =
          min (utf8Bytes old).length (utf8Bytes new).length - s
        ∨ (utf8Bytes old).getD
            ((utf8Bytes old).length - 1 - ((utf8Bytes old).length - e)) 0 ≠
          (utf8Bytes new).getD
            ((utf8Bytes new).length - 1 - ((utf8Bytes old).length - e)) 0) := by
  have heq : computeMinimalTextEdit old new = (s, e, rep) := by
    simp only [computeMinimalTextEditChecked] at hret
    split at hret
    · exact Option.some.inj hret
    · exact absurd hret (by simp)
  simp only [computeMinimalTextEdit, Prod.mk.injEq] at heq
  obtain ⟨hs, he, hr⟩ := heq
  have hpre := utf8Bytes_take_prefixByteLoop old new
  have hsuf := suffixLoop_spec (utf8Bytes old) (utf8Bytes new) (prefixByteLoop old new)
  set srcB := utf8Bytes old with hsrcB
  set fmtB := utf8Bytes new with hfmtB
  set pfx := prefixByteLoop old new with hpfx
  set sfx := suffixLoop srcB fmtB pfx with hsfx
  have hpfx_src : pfx ≤ srcB.length := hpre.2.1
  have hpfx_fmt : pfx ≤ fmtB.length := hpre.2.2
  have hsfx_bound : sfx ≤ min srcB.length fmtB.length - pfx := hsuf.1
  have hsfx_src : sfx ≤ srcB.length := by omega
  have hsfx_fmt : sfx ≤ fmtB.length := by omega
  have hsfx_e : srcB.length - e = sfx := by omega
  have hdropeq : srcB.drop (srcB.length - sfx) = fmtB.drop (fmtB.length - sfx) :=
    drop_eq_of_end_matches srcB fmtB sfx hsfx_src hsfx_fmt hsuf.2.1
  refine ⟨?_, by rw [← hs, hpfx]; exact prefixByteLoop_eq old new,
    charPrefixLen_take_eq old new, charPrefixLen_maximal old new, by omega,
    by omega, by omega, ?_, ?_⟩
  · -- the byte-level splice equation
    have hple : pfx ≤ fmtB.length - sfx := by omega
    have he' : e = srcB.length - sfx := he.symm
    calc srcB.take s ++ rep ++ srcB.drop e
        = fmtB.take pfx ++ (fmtB.take (fmtB.length - sfx)).drop pfx ++
            fmtB.drop (fmtB.length - sfx) := by
          rw [← hs, ← hr, he', hdropeq, hpre.1]
      _ = (fmtB.take (fmtB.length - sfx)).take pfx ++
            (fmtB.take (fmtB.length - sfx)).drop pfx ++
            fmtB.drop (fmtB.length - sfx) := by
          rw [List.take_take, Nat.min_eq_left hple]
      _ = fmtB.take (fmtB.length - sfx) ++ fmtB.drop (fmtB.length - sfx) := by
          rw [List.take_append_drop]
      _ = fmtB := List.take_append_drop _ _
  · -- the common suffix, as equal trailing segments
    rw [hsfx_e, ← hdropeq]
    congr 1
    omega
  · -- maximality of the suffix: the bound is hit or the next byte differs
    rw [hsfx_e, ← hs]
    exact hsuf.2.2

/-- Witness for C1 (amended) at `old = "abc"`, `new = "axc"`, where the
checked model returns `some (1, 2, "x")`. -/
theorem minimal_text_edit_amended_witness :
    (utf8Bytes ['a', 'b', 'c']).take 1 ++ [120] ++ (utf8Bytes ['a', 'b', 'c']).drop 2 =
      utf8Bytes ['a', 'x', 'c'] :=
  (minimal_text_edit_amended ['a', 'b', 'c'] ['a', 'x', 'c'] (by decide) 1 2 [120]
    (by decide)).1

